import Mathlib

/-!
Verification of the core pipeline of `src/streamlit_app.py` (FPI Investor
Email Finder): the email extractor, site selector, page fetcher, batch
orchestrator and domain aggregation, shallowly embedded as executable Lean
functions, with theorems settling the specification claims.
-/

namespace FpiSearch

/-! ### Email Extractor (src/streamlit_app.py, lines 58-67)

The Python function first strips HTML via BeautifulSoup (`soup.get_text()`);
we model the extractor on the post-`get_text` plain text, which is the text
the regex scan actually sees (for plain-text inputs `get_text` is the
identity).  The regex is
`[a-zA-Z0-9_.+-]+@[a-zA-Z0-9-]+\.[a-zA-Z0-9-.]+`.
Because none of the three character classes contains `@` (resp. `.` for the
middle class), each greedy `+` is equivalent to maximal munch followed by the
required literal, so `re.findall` is the deterministic leftmost scan
implemented below. -/

/-- Character class `[a-zA-Z0-9_.+-]` of the local part. -/
def isA (c : Char) : Bool :=
  c.isAlphanum || c = '_' || c = '.' || c = '+' || c = '-'

/-- Character class `[a-zA-Z0-9-]` of the first domain label. -/
def isB (c : Char) : Bool :=
  c.isAlphanum || c = '-'

/-- Character class `[a-zA-Z0-9-.]` of the domain tail. -/
def isC (c : Char) : Bool :=
  c.isAlphanum || c = '-' || c = '.'

/-- Try to match the email regex at the head of `s`; on success return the
matched characters and the remaining input. -/
def matchAt (s : List Char) : Option (List Char × List Char) :=
  match s.takeWhile isA, s.dropWhile isA with
  | [], _ => none
  | a :: as, '@' :: r2 =>
    match r2.takeWhile isB, r2.dropWhile isB with
    | [], _ => none
    | b :: bs, '.' :: r4 =>
      match r4.takeWhile isC, r4.dropWhile isC with
      | [], _ => none
      | c :: cs, r5 =>
        some ((a :: as) ++ '@' :: ((b :: bs) ++ '.' :: (c :: cs)), r5)
    | _, _ => none
  | _, _ => none

/-- Leftmost non-overlapping scan of `re.findall`, fuelled by the input
length (each successful match consumes at least one character, so the fuel
never runs out on the wrapper below). -/
def findallAux : Nat → List Char → List (List Char)
  | 0, _ => []
  | _ + 1, [] => []
  | fuel + 1, ch :: rest =>
    match matchAt (ch :: rest) with
    | some (m, r) => m :: findallAux fuel r
    | none => findallAux fuel rest

/-- All matches of the email regex in `s`, leftmost and non-overlapping,
as `re.findall` returns them. -/
def findall (s : List Char) : List (List Char) :=
  findallAux s.length s

/-- Python `str.strip(".;,")` strips these characters from both ends. -/
def isStripChar (c : Char) : Bool :=
  c = '.' || c = ';' || c = ','

/-- Python `e.strip(".;,")`: drop leading and trailing characters . ; ,. -/
def pyStrip (l : List Char) : List Char :=
  ((l.dropWhile isStripChar).reverse.dropWhile isStripChar).reverse

/-- One step of materialising a Python set: add `e` unless already present. -/
def pySetF (acc : List String) (e : String) : List String :=
  if e ∈ acc then acc else acc ++ [e]

/-- Python `set(...)` materialised back as a list: keep the first occurrence
of each distinct element (iteration order of a CPython set is unspecified;
every claim below only uses membership and multiplicity-free-ness). -/
def pySet (l : List String) : List String :=
  l.foldl pySetF []

/-- Boolean prefix test on character lists. -/
def isPrefixL : List Char → List Char → Bool
  | [], _ => true
  | _ :: _, [] => false
  | a :: as, b :: bs => a == b && isPrefixL as bs

/-- Boolean suffix test on character lists (Python `str.endswith`). -/
def endsWithL (l suf : List Char) : Bool :=
  isPrefixL suf.reverse l.reverse

/-- Python `str.lower()` (ASCII, which is all the regex can produce). -/
def lowerL (l : List Char) : List Char :=
  l.map Char.toLower

/-- The media-extension rejection test of line 64:
`e.lower().endswith(('.png', '.jpg', '.jpeg', '.svg', '.gif'))`. -/
def mediaExt (e : String) : Bool :=
  endsWithL (lowerL e.toList) ".png".toList ||
  endsWithL (lowerL e.toList) ".jpg".toList ||
  endsWithL (lowerL e.toList) ".jpeg".toList ||
  endsWithL (lowerL e.toList) ".svg".toList ||
  endsWithL (lowerL e.toList) ".gif".toList

/-- The extractor of lines 58-67: regex scan, set, media-extension filter,
then (length > 6 and contains a dot) filter followed by `strip(".;,")`,
collected into a set and returned as a list. -/
def extract_emails_from_html (text : String) : List String :=
  let emails := pySet ((findall text.toList).map fun l => String.mk l)
  let cleaned := emails.filter fun e => !(mediaExt e)
  pySet (((cleaned.filter fun e => decide (6 < e.length) && e.toList.contains '.').map
    fun e => String.mk (pyStrip e.toList)))

/-! ### Site Selector (src/streamlit_app.py, lines 69-85)

`get_best_website_for_name` issues one Custom Search call
`service.cse().list(q=name, cx=CX, num=3)` (line 72), then walks the
returned items in order.  We embed the query construction as `searchQuery` /
`searchNum`, and the selection loop as a pure function of the provider's
result list (each item exposing `link` and `snippet`). -/

/-- The query string passed as `q=` on line 72: the bare entity name. -/
def searchQuery (name : String) : String := name

/-- The `num=` parameter of the search call on line 72. -/
def searchNum : Nat := 3

/-- Boolean substring test on character lists (Python `in` on strings). -/
def containsSub (sub : List Char) : List Char → Bool
  | [] => isPrefixL sub []
  | c :: rest => isPrefixL sub (c :: rest) || containsSub sub rest

/-- One provider result: `result['link']` and `result.get('snippet', "")`. -/
structure SearchResult where
  link : String
  snippet : String
  deriving DecidableEq, Repr

/-- The immediate-selection test of line 78:
`"contact" in url.lower() or "email" in snippet.lower()`. -/
def selCond (r : SearchResult) : Bool :=
  containsSub "contact".toList (lowerL r.link.toList) ||
  containsSub "email".toList (lowerL r.snippet.toList)

/-- The `for result in response.get('items', [])` loop of lines 74-82, with
`candidates` the accumulated fallback URLs. -/
def selectLoop : List SearchResult → List String → Option String
  | [], candidates => candidates.head?
  | r :: rest, candidates =>
    if selCond r then some r.link else selectLoop rest (candidates ++ [r.link])

/-- Lines 73-85: select a website from the provider's result list; `none` is
the Python `None` returned when no candidate was seen (or when the provider
call raised, which yields the same `None` through the bare `except`). -/
def get_best_website_for_name (items : List SearchResult) : Option String :=
  selectLoop items []

/-! ### Page Fetcher (src/streamlit_app.py, lines 87-96)

`crawl_and_get_emails` performs `requests.get(url, timeout=12,
headers={"User-Agent": "Mozilla/5.0"})`.  The network is embedded as the
outcome the call produces: either a response (status code and body text) or
a raised exception, which the bare `except` swallows. -/

/-- The `timeout=` argument of the `requests.get` call on line 89. -/
def fetchTimeout : Nat := 12

/-- The `User-Agent` header value of the `requests.get` call on line 89. -/
def fetchUserAgent : String := "Mozilla/5.0"

/-- An HTTP response as the fetcher reads it: `resp.status_code`, `resp.text`. -/
structure HttpResponse where
  status_code : Nat
  text : String

/-- Lines 87-96 as a function of the network outcome: `Except.error`
models any exception raised by `requests.get` (timeout, DNS failure,
connection refused, TLS failure, malformed URL). -/
def crawl_and_get_emails (outcome : Except Unit HttpResponse) : List String :=
  match outcome with
  | .error _ => []
  | .ok resp =>
    if resp.status_code = 200 then extract_emails_from_html resp.text else []

/-! ### Batch Orchestrator (src/streamlit_app.py, lines 102-112)

The `for name in fpi_names` loop.  The two external effects of an
iteration — the selector's answer for a name and the crawler's answer for a
URL — are passed in as functions, so the loop body is the faithful pure
residue; note the Python truthiness test `if website:` (both `None` and the
empty string are falsy) and `website or "Not found"`. -/

/-- One output row as appended on lines 108-112. -/
structure EntityResult where
  Name : String
  Website : String
  Emails : String
  deriving DecidableEq, Repr

/-- Python `", ".join(emails)`. -/
def joinComma (emails : List String) : String :=
  String.intercalate ", " emails

/-- The body of the results loop (lines 104-112) for one name: `sel` is
what `get_best_website_for_name` answers for the name, `cr` what
`crawl_and_get_emails` answers for a URL. -/
def processName (sel : String → Option String) (cr : String → List String)
    (name : String) : EntityResult :=
  let website := sel name
  let emails : List String :=
    match website with
    | some url => if url = "" then [] else cr url
    | none => []
  { Name := name
    Website := match website with
      | some url => if url = "" then "Not found" else url
      | none => "Not found"
    Emails := if emails = [] then "Not found" else joinComma emails }

/-- The whole results loop: one `EntityResult` appended per input name, in
order. -/
def runBatch (sel : String → Option String) (cr : String → List String)
    (names : List String) : List EntityResult :=
  names.map (processName sel cr)

/-! ### Aggregation (src/streamlit_app.py, lines 116 and 131-134) -/

/-- The count interpolated into the success message of line 116,
`f"Done! Found emails for {len(fpi_names)} investors."`: the length of the
input name list, independent of the results. -/
def summaryCount (names : List String) : Nat :=
  names.length

/-- The number of results whose `Emails` field is not the sentinel — the
resolved count the specification's summary is about. -/
def resolved_count (results : List EntityResult) : Nat :=
  (results.filter fun r => r.Emails ≠ "Not found").length

/-- Python `s.split(sep)` for a nonempty separator, fuelled scan
(`acc` holds the current piece reversed). -/
def pySplitAux (sep : List Char) : Nat → List Char → List Char → List (List Char)
  | 0, l, acc => [acc.reverse ++ l]
  | _ + 1, [], acc => [acc.reverse]
  | fuel + 1, c :: rest, acc =>
    if isPrefixL sep (c :: rest) then
      acc.reverse :: pySplitAux sep fuel ((c :: rest).drop sep.length) []
    else
      pySplitAux sep fuel rest (c :: acc)

/-- Python `s.split(sep)` (nonempty `sep`): `"".split(sep) = [""]`. -/
def pySplit (sep : String) (s : String) : List String :=
  (pySplitAux sep.toList (s.toList.length + 1) s.toList []).map fun l => String.mk l

/-- Line 131: `[email for row in results for email in row["Emails"].split(", ")
if "@" in email]`. -/
def all_emails (results : List EntityResult) : List String :=
  (results.map fun row =>
    (pySplit ", " row.Emails).filter fun e => containsSub "@".toList e.toList).flatten

/-- Line 133: `[e.split("@")[1] for e in all_emails if "@" in e]` — the list
whose multiset of elements is the domain tally fed to the word cloud. -/
def domains (results : List EntityResult) : List String :=
  ((all_emails results).filter fun e => containsSub "@".toList e.toList).map
    fun e => (pySplit "@" e).getD 1 ""

/-- The selector answer in the tally scenario of claim C8. -/
def selAB : String → Option String := fun n =>
  if n = "A" then some "http://a.example" else
  if n = "B" then some "http://b.example" else none

/-- The crawler answer in the tally scenario of claim C8: entity A resolves
x@foo.com, entity B resolves y@foo.com and z@bar.com. -/
def crAB : String → List String := fun u =>
  if u = "http://a.example" then ["x@foo.com"] else
  if u = "http://b.example" then ["y@foo.com", "z@bar.com"] else []

/-! ### Helper lemmas -/

theorem isPrefixL_refl (l : List Char) : isPrefixL l l = true := by
  induction l with
  | nil => rfl
  | cons a as ih => simp [isPrefixL, ih]

theorem foldl_pySetF_mem (l : List String) :
    ∀ acc x, x ∈ l.foldl pySetF acc ↔ x ∈ acc ∨ x ∈ l := by
  induction l with
  | nil => intro acc x; simp
  | cons a l ih =>
    intro acc x
    rw [List.foldl_cons, ih]
    by_cases h : a ∈ acc
    · have hxa : x = a → x ∈ acc := fun hx => hx ▸ h
      simp only [pySetF, if_pos h, List.mem_cons]
      tauto
    · simp only [pySetF, if_neg h, List.mem_append, List.mem_cons,
        List.mem_singleton]
      tauto

theorem mem_pySet {l : List String} {x : String} : x ∈ pySet l ↔ x ∈ l := by
  rw [pySet, foldl_pySetF_mem]
  simp

theorem foldl_pySetF_nodup (l : List String) :
    ∀ acc, acc.Nodup → (l.foldl pySetF acc).Nodup := by
  induction l with
  | nil => intro acc h; exact h
  | cons a l ih =>
    intro acc h
    rw [List.foldl_cons]
    refine ih _ ?_
    by_cases ha : a ∈ acc
    · simpa [pySetF, if_pos ha] using h
    · simp [pySetF, if_neg ha, List.nodup_append, h, ha]

theorem nodup_pySet (l : List String) : (pySet l).Nodup :=
  foldl_pySetF_nodup l [] List.nodup_nil

/-- Structure of a successful regex match: a nonempty local part over
`isA`, an `@`, a nonempty label over `isB`, a dot, and a nonempty tail over
`isC`. -/
theorem matchAt_some {s m r : List Char} (h : matchAt s = some (m, r)) :
    ∃ a b c : List Char, m = a ++ '@' :: (b ++ '.' :: c) ∧
      a ≠ [] ∧ (∀ x ∈ a, isA x = true) ∧
      b ≠ [] ∧ (∀ x ∈ b, isB x = true) ∧
      c ≠ [] ∧ (∀ x ∈ c, isC x = true) := by
  unfold matchAt at h
  split at h <;> try exact Option.noConfusion h
  rename_i a as r2 hA hD1
  split at h <;> try exact Option.noConfusion h
  rename_i b bs r4 hB hD2
  split at h <;> try exact Option.noConfusion h
  rename_i c cs hC
  injection h with h1
  obtain ⟨hm, hr⟩ := Prod.mk.injEq .. ▸ h1
  refine ⟨a :: as, b :: bs, c :: cs, hm.symm, by simp, ?_, by simp, ?_, by simp, ?_⟩
  · intro x hx
    exact List.mem_takeWhile_imp (hA ▸ hx)
  · intro x hx
    exact List.mem_takeWhile_imp (hB ▸ hx)
  · intro x hx
    exact List.mem_takeWhile_imp (hC ▸ hx)

/-- Every string of the `findall` scan has the matched shape. -/
theorem mem_findallAux {fuel : Nat} :
    ∀ {s m : List Char}, m ∈ findallAux fuel s →
      ∃ a b c : List Char, m = a ++ '@' :: (b ++ '.' :: c) ∧
        a ≠ [] ∧ (∀ x ∈ a, isA x = true) ∧
        b ≠ [] ∧ (∀ x ∈ b, isB x = true) ∧
        c ≠ [] ∧ (∀ x ∈ c, isC x = true) := by
  induction fuel with
  | zero => intro s m h; simp [findallAux] at h
  | succ fuel ih =>
    intro s m h
    match s with
    | [] => simp [findallAux] at h
    | ch :: rest =>
      rw [findallAux] at h
      cases hm : matchAt (ch :: rest) with
      | some p =>
        obtain ⟨m', r⟩ := p
        rw [hm] at h
        rcases List.mem_cons.mp h with h | h
        · exact h ▸ matchAt_some hm
        · exact ih h
      | none =>
        rw [hm] at h
        exact ih h

theorem mem_findall {s m : List Char} (h : m ∈ findall s) :
    ∃ a b c : List Char, m = a ++ '@' :: (b ++ '.' :: c) ∧
      a ≠ [] ∧ (∀ x ∈ a, isA x = true) ∧
      b ≠ [] ∧ (∀ x ∈ b, isB x = true) ∧
      c ≠ [] ∧ (∀ x ∈ c, isC x = true) :=
  mem_findallAux h

theorem count_dropWhile_of_neg {p : Char → Bool} {c : Char} (hc : p c = false) :
    ∀ l : List Char, (l.dropWhile p).count c = l.count c := by
  intro l
  induction l with
  | nil => rfl
  | cons a l ih =>
    by_cases h : p a
    · rw [List.dropWhile_cons_of_pos h, ih, List.count_cons]
      have : (a == c) = false := by
        refine beq_false_of_ne fun hac => ?_
        rw [hac, hc] at h
        exact Bool.false_ne_true h
      simp [this]
    · rw [List.dropWhile_cons_of_neg h]

theorem count_pyStrip {c : Char} (hc : isStripChar c = false) (l : List Char) :
    (pyStrip l).count c = l.count c := by
  unfold pyStrip
  rw [List.count_reverse, count_dropWhile_of_neg hc, List.count_reverse,
    count_dropWhile_of_neg hc]

theorem mem_pyStrip {x : Char} {l : List Char} (h : x ∈ pyStrip l) : x ∈ l := by
  unfold pyStrip at h
  rw [List.mem_reverse] at h
  have h2 := (List.dropWhile_sublist (l := (l.dropWhile isStripChar).reverse)
    (p := isStripChar)).mem h
  rw [List.mem_reverse] at h2
  exact (List.dropWhile_sublist (l := l) (p := isStripChar)).mem h2

theorem containsSub_eq_false_of_not_mem {c₀ : Char} {sub l : List Char}
    (h : c₀ ∉ l) : containsSub (c₀ :: sub) l = false := by
  induction l with
  | nil => rfl
  | cons a rest ih =>
    rw [containsSub]
    have hne : (c₀ == a) = false :=
      beq_false_of_ne fun hc => h (hc ▸ List.mem_cons_self a rest)
    rw [isPrefixL, hne]
    simp only [Bool.false_and, Bool.false_or]
    exact ih fun hm => h (List.mem_cons_of_mem a hm)

/-- Anatomy of an extractor output: it is the `strip(".;,")` of a raw regex
match that survived the media-extension, length and dot filters, and the raw
match decomposes into the three character classes. -/
theorem mem_extract {text e : String} (he : e ∈ extract_emails_from_html text) :
    ∃ raw : List Char, raw ∈ findall text.toList ∧ e = String.mk (pyStrip raw) ∧
      6 < raw.length ∧ raw.contains '.' = true ∧ mediaExt (String.mk raw) = false := by
  simp only [extract_emails_from_html] at he
  rw [mem_pySet] at he
  obtain ⟨e', he', rfl⟩ := List.mem_map.mp he
  obtain ⟨he'', hcond⟩ := List.mem_filter.mp he'
  obtain ⟨hmem, hmedia⟩ := List.mem_filter.mp he''
  rw [mem_pySet] at hmem
  obtain ⟨raw, hraw, rfl⟩ := List.mem_map.mp hmem
  obtain ⟨hlen, hdot⟩ := Bool.and_eq_true .. ▸ hcond
  refine ⟨raw, hraw, rfl, of_decide_eq_true hlen, hdot, ?_⟩
  simpa using hmedia

/-- Every character of a raw regex match is `@`, `.`, or a member of one of
the three character classes. -/
theorem chars_of_match {a b c : List Char}
    (hA : ∀ x ∈ a, isA x = true) (hB : ∀ x ∈ b, isB x = true)
    (hC : ∀ x ∈ c, isC x = true) :
    ∀ x ∈ a ++ '@' :: (b ++ '.' :: c),
      x = '@' ∨ x = '.' ∨ isA x = true ∨ isB x = true ∨ isC x = true := by
  intro x hx
  rw [List.mem_append, List.mem_cons] at hx
  rcases hx with hx | hx | hx
  · exact Or.inr (Or.inr (Or.inl (hA x hx)))
  · exact Or.inl hx
  · rw [List.mem_append, List.mem_cons] at hx
    rcases hx with hx | hx | hx
    · exact Or.inr (Or.inr (Or.inr (Or.inl (hB x hx))))
    · exact Or.inr (Or.inl hx)
    · exact Or.inr (Or.inr (Or.inr (Or.inr (hC x hx))))

/-- A raw regex match contains exactly one `@`. -/
theorem count_at_match {a b c : List Char}
    (hA : ∀ x ∈ a, isA x = true) (hB : ∀ x ∈ b, isB x = true)
    (hC : ∀ x ∈ c, isC x = true) :
    (a ++ '@' :: (b ++ '.' :: c)).count '@' = 1 := by
  have ha : a.count '@' = 0 := List.count_eq_zero.mpr fun hm => by
    have h := hA _ hm
    revert h
    decide
  have hb : b.count '@' = 0 := List.count_eq_zero.mpr fun hm => by
    have h := hB _ hm
    revert h
    decide
  have hc : c.count '@' = 0 := List.count_eq_zero.mpr fun hm => by
    have h := hC _ hm
    revert h
    decide
  simp only [List.count_append, List.count_cons, ha, hb, hc]
  decide

/-- Every character of an extractor output is `@`, `.`, or in one of the
regex character classes. -/
theorem extract_chars {text e : String} (he : e ∈ extract_emails_from_html text) :
    ∀ x ∈ e.toList, x = '@' ∨ x = '.' ∨ isA x = true ∨ isB x = true ∨ isC x = true := by
  obtain ⟨raw, hraw, rfl, -, -, -⟩ := mem_extract he
  obtain ⟨a, b, c, hdecomp, -, hA, -, hB, -, hC⟩ := mem_findall hraw
  intro x hx
  have hxraw : x ∈ raw := mem_pyStrip hx
  exact chars_of_match hA hB hC x (hdecomp ▸ hxraw)

/-- An extractor output contains exactly one `@`. -/
theorem extract_count_at {text e : String} (he : e ∈ extract_emails_from_html text) :
    e.toList.count '@' = 1 := by
  obtain ⟨raw, hraw, rfl, -, -, -⟩ := mem_extract he
  obtain ⟨a, b, c, hdecomp, -, hA, -, hB, -, hC⟩ := mem_findall hraw
  show (pyStrip raw).count '@' = 1
  rw [count_pyStrip (by decide), hdecomp]
  exact count_at_match hA hB hC

/-- The value of the selection loop, any accumulator: the first result
satisfying the line-78 test wins, else the head of all accumulated URLs. -/
theorem selectLoop_eq (items : List SearchResult) :
    ∀ acc : List String, selectLoop items acc =
      match items.find? selCond with
      | some r => some r.link
      | none => (acc ++ items.map SearchResult.link).head? := by
  induction items with
  | nil => intro acc; simp [selectLoop]
  | cons r rest ih =>
    intro acc
    by_cases h : selCond r = true
    · rw [selectLoop, if_pos h, List.find?_cons_of_pos _ h]
    · have h' : selCond r = false := Bool.eq_false_iff.mpr h
      rw [selectLoop, if_neg h, List.find?_cons_of_neg _ h, ih (acc ++ [r.link])]
      cases hf : rest.find? selCond with
      | some r' => simp
      | none => simp [List.append_assoc]

theorem containsSub_self (l : List Char) : containsSub l l = true := by
  cases l with
  | nil => rfl
  | cons c rest => simp [containsSub, isPrefixL_refl]

/-- Characters of the regex alphabet (the classes plus `@` and `.`) are
never whitespace. -/
theorem not_ws_of_class {x : Char}
    (h : x = '@' ∨ x = '.' ∨ isA x = true ∨ isB x = true ∨ isC x = true) :
    x.isWhitespace = false := by
  cases hw : x.isWhitespace
  · rfl
  · exfalso
    have hw' : (x = ' ' || x = '\t' || x = '\r' || x = '\n') = true := hw
    have hx : x = ' ' ∨ x = '\t' ∨ x = '\r' ∨ x = '\n' := by
      simpa [Bool.or_eq_true, decide_eq_true_eq, or_assoc] using hw'
    rcases hx with rfl | rfl | rfl | rfl <;> revert h <;> decide

/-! ### The claims -/

/-- Claim C1, counterexample: on the obfuscated input the extractor does
not return the canonical address. -/
theorem obfuscated_not_extracted :
    "jane@example.com" ∉
      extract_emails_from_html "contact me at jane [at] example.com please" := by
  decide

/-- Claim C1 (amended): the extractor performs no `[at]` obfuscation
normalization — the regex only matches the canonical shape, so the
obfuscated input yields the empty set, while the same address written
canonically is extracted. -/
theorem no_obfuscation_normalization :
    extract_emails_from_html "contact me at jane [at] example.com please" = [] ∧
    extract_emails_from_html "contact me at jane@example.com please" =
      ["jane@example.com"] :=
  ⟨rfl, rfl⟩

/-- Claim C2: the selector returns the link of the first provider result
whose URL contains "contact" or snippet contains "email"
(case-insensitively); if none qualifies it returns the top-ranked result's
URL, and `none` (the "not found" sentinel) on an empty result list. -/
theorem selector_policy (items : List SearchResult) :
    get_best_website_for_name items =
      match items.find? selCond with
      | some r => some r.link
      | none => Option.map SearchResult.link items.head? := by
  rw [get_best_website_for_name, selectLoop_eq items []]
  cases hf : items.find? selCond with
  | some r => simp only [hf]
  | none =>
    simp only [hf]
    rw [List.nil_append, List.head?_map]

/-- Claim C3, counterexample: the length, dot and media-extension filters
are applied before `strip(".;,")`, so the returned set can contain a string
of length 5 with no dot after the `@`, and a string ending in `.png`. -/
theorem filters_not_on_returned_string :
    extract_emails_from_html "ab@cd..." = ["ab@cd"] ∧
    ¬ 6 < ("ab@cd" : String).length ∧
    ("ab@cd" : String).toList.contains '.' = false ∧
    extract_emails_from_html "x@yz.png." = ["x@yz.png"] ∧
    endsWithL (lowerL ("x@yz.png" : String).toList) ".png".toList = true := by
  refine ⟨rfl, by decide, rfl, rfl, rfl⟩

/-- Claim C3 (amended): every returned string contains no `[at]` marker and
no whitespace, and is the `strip(".;,")` of a raw regex match whose
pre-strip form passed the length (> 6), dot-presence and media-extension
checks; the checks are not re-applied to the stripped string. -/
theorem extractor_invariants_prestrip (text e : String)
    (he : e ∈ extract_emails_from_html text) :
    containsSub "[at]".toList e.toList = false ∧
    (e.toList.all fun x => !x.isWhitespace) = true ∧
    ∃ raw : List Char, e = String.mk (pyStrip raw) ∧ 6 < raw.length ∧
      raw.contains '.' = true ∧ mediaExt (String.mk raw) = false := by
  refine ⟨?_, ?_, ?_⟩
  · refine containsSub_eq_false_of_not_mem fun hm => ?_
    have h := extract_chars he '[' hm
    revert h
    decide
  · rw [List.all_eq_true]
    intro x hx
    rw [not_ws_of_class (extract_chars he x hx)]
    rfl
  · obtain ⟨raw, _, hval, hlen, hdot, hmedia⟩ := mem_extract he
    exact ⟨raw, hval, hlen, hdot, hmedia⟩

/-- Witness for the amended claim C3 at the concrete input `"ab@cd..."`. -/
theorem extractor_invariants_prestrip_witness :
    containsSub "[at]".toList ("ab@cd" : String).toList = false ∧
    (("ab@cd" : String).toList.all fun x => !x.isWhitespace) = true ∧
    ∃ raw : List Char, ("ab@cd" : String) = String.mk (pyStrip raw) ∧ 6 < raw.length ∧
      raw.contains '.' = true ∧ mediaExt (String.mk raw) = false :=
  extractor_invariants_prestrip "ab@cd..." "ab@cd" (by decide)

/-- Claim C4: the batch loop emits exactly one result per input name, in
order, with `Name` echoing the input, whatever the selector and crawler
answer; each row depends only on its own name, so one entity's failure
cannot disturb another's row. -/
theorem batch_order_preservation (sel : String → Option String)
    (cr : String → List String) (names : List String) :
    (runBatch sel cr names).map EntityResult.Name = names ∧
    ∀ k : Nat, (runBatch sel cr names)[k]? = (names[k]?).map (processName sel cr) := by
  constructor
  · rw [runBatch, List.map_map]
    have h : EntityResult.Name ∘ processName sel cr = id := funext fun _ => rfl
    rw [h, List.map_id]
  · intro k
    rw [runBatch, List.getElem?_map]

/-- Claim C5: the fetch carries a 12-unit timeout and a browser-like
user agent; a 200 response yields the extractor's output on the body, and
any non-200 status or raised network exception yields the empty list. -/
theorem fetcher_maps_failure_to_empty (outcome : Except Unit HttpResponse) :
    fetchTimeout = 12 ∧ fetchUserAgent = "Mozilla/5.0" ∧
    (∀ resp : HttpResponse, outcome = Except.ok resp → resp.status_code = 200 →
      crawl_and_get_emails outcome = extract_emails_from_html resp.text) ∧
    (∀ resp : HttpResponse, outcome = Except.ok resp → resp.status_code ≠ 200 →
      crawl_and_get_emails outcome = []) ∧
    (∀ err : Unit, outcome = Except.error err → crawl_and_get_emails outcome = []) := by
  refine ⟨rfl, rfl, ?_, ?_, ?_⟩
  · rintro resp rfl h200
    simp [crawl_and_get_emails, h200]
  · rintro resp rfl hne
    simp [crawl_and_get_emails, hne]
  · rintro err rfl
    rfl

/-- Witness for claim C5 at concrete 200, 404 and exception outcomes. -/
theorem fetcher_maps_failure_to_empty_witness :
    crawl_and_get_emails (Except.ok ⟨200, "mail john@example.org now"⟩) =
      ["john@example.org"] ∧
    crawl_and_get_emails (Except.ok ⟨404, "mail john@example.org now"⟩) = [] ∧
    crawl_and_get_emails (Except.error ()) = [] := by
  refine ⟨?_, ?_, ?_⟩
  · rw [(fetcher_maps_failure_to_empty
      (Except.ok ⟨200, "mail john@example.org now"⟩)).2.2.1 _ rfl rfl]
    rfl
  · exact (fetcher_maps_failure_to_empty
      (Except.ok ⟨404, "mail john@example.org now"⟩)).2.2.2.1 _ rfl (by decide)
  · exact (fetcher_maps_failure_to_empty (Except.error ())).2.2.2.2 () rfl

/-- Claim C6: the success message of line 116 interpolates the total number
of input names, not the resolved count — a batch of one name with no
website has resolved count 0 while the message reports 1. -/
theorem summary_reports_total_count :
    summaryCount ["Acme Capital"] = 1 ∧
    resolved_count (runBatch (fun _ => none) (fun _ => []) ["Acme Capital"]) = 0 ∧
    summaryCount ["Acme Capital"] ≠
      resolved_count (runBatch (fun _ => none) (fun _ => []) ["Acme Capital"]) := by
  refine ⟨rfl, rfl, by decide⟩

/-- Claim C7, counterexample: the query of line 72 is the bare name — it
contains neither the fixed hint "contact email" nor the quoted name. -/
theorem query_has_no_hint :
    containsSub "contact email".toList (searchQuery "Acme Capital").toList = false ∧
    containsSub "\"Acme Capital\"".toList (searchQuery "Acme Capital").toList = false :=
  ⟨rfl, rfl⟩

/-- Claim C7 (amended): the single search query is exactly the entity's
name, unquoted and with no contextual hint, requesting up to 3 results. -/
theorem query_is_bare_name (name : String) :
    searchQuery name = name ∧ searchNum = 3 ∧
    containsSub name.toList (searchQuery name).toList = true :=
  ⟨rfl, rfl, containsSub_self name.toList⟩

/-- Claim C8: in the scenario where entity A resolves x@foo.com and entity
B resolves y@foo.com and z@bar.com, the domain tally counts foo.com twice
and bar.com once, and nothing else. -/
theorem domain_tally_example :
    (domains (runBatch selAB crAB ["A", "B"])).count "foo.com" = 2 ∧
    (domains (runBatch selAB crAB ["A", "B"])).count "bar.com" = 1 ∧
    domains (runBatch selAB crAB ["A", "B"]) = ["foo.com", "foo.com", "bar.com"] :=
  ⟨rfl, rfl, rfl⟩

/-- Claim C9: the extractor's result list has no duplicates, and every
returned string contains exactly one `@`. -/
theorem extract_nodup_single_at (text e : String)
    (he : e ∈ extract_emails_from_html text) :
    (extract_emails_from_html text).Nodup ∧ e.toList.count '@' = 1 :=
  ⟨nodup_pySet _, extract_count_at he⟩

/-- Witness for claim C9 at a concrete input. -/
theorem extract_nodup_single_at_witness :
    (extract_emails_from_html "mail a@bc.de now").Nodup ∧
      ("a@bc.de" : String).toList.count '@' = 1 :=
  extract_nodup_single_at "mail a@bc.de now" "a@bc.de" (by decide)

/-- Claim C10: a result row whose `Emails` field is the "Not found"
sentinel contributes nothing to the domain tally. -/
theorem sentinel_contributes_nothing (rs1 rs2 : List EntityResult)
    (r : EntityResult) (h : r.Emails = "Not found") :
    domains (rs1 ++ r :: rs2) = domains (rs1 ++ rs2) := by
  have hr : ((pySplit ", " r.Emails).filter fun e => containsSub "@".toList e.toList)
      = [] := by
    rw [h]
    rfl
  unfold domains all_emails
  simp only [List.map_append, List.map_cons, hr, List.flatten_append,
    List.flatten_cons, List.nil_append]

/-- Witness for claim C10: prepending a sentinel row to a one-row batch
leaves the tally unchanged. -/
theorem sentinel_contributes_nothing_witness :
    domains [⟨"B", "Not found", "Not found"⟩, ⟨"A", "http://a.example", "x@foo.com"⟩] =
      domains [⟨"A", "http://a.example", "x@foo.com"⟩] :=
  sentinel_contributes_nothing [] [⟨"A", "http://a.example", "x@foo.com"⟩]
    ⟨"B", "Not found", "Not found"⟩ rfl

end FpiSearch
